import Mathlib

/-!
# Verification of the ai-cinema scene playback engine

Shallow embedding of the playback engine of the ai-cinema repository
(`src/components/MovieScreen.tsx`, `src/services/geminiService.ts`,
`src/types.ts`) and proofs of the specified playback properties.

Conventions:
* JavaScript numbers used as times are modelled as rationals (`ℚ`);
  loop counters and lengths as `Nat`; the `scriptIndex` cursor as `Int`
  because the source uses the sentinels `-1` (narration) and `-2` (pre-roll).
* Fallible operations return `Option`.
* The asynchronous completion-callback structure of the source is modelled
  by explicit state passing: an `await`ed call is a sequential function call,
  and a registered `onComplete` callback is a `Pending` value stored in the
  state, delivered by an explicit `deliverDone` event.
-/

namespace AiCinema

/-- The `AudioMode` type from `types.ts`: `gemini` is the generated (pre-synthesized)
mode, `browser` the on-device TTS mode, `custom` the external-track mode. -/
inductive AudioMode where
  | gemini
  | browser
  | custom
deriving DecidableEq, Repr

/-- The `DialogueLine` type from `types.ts` (the playback engine reads only
`characterId` and `text`). -/
structure DialogueLine where
  characterId : String
  text : String
deriving DecidableEq, Repr

/-- The `Scene` type from `types.ts`, restricted to the fields the playback engine
reads: `id`, `description`, the optional external-track timestamps, and the
dialogue `script`. -/
structure Scene where
  id : String
  description : String
  startTime : Option ℚ := none
  endTime : Option ℚ := none
  script : List DialogueLine
deriving DecidableEq, Repr

/-- The `Movie` type from `types.ts`, restricted to the fields the playback engine
reads. -/
structure Movie where
  audioMode : AudioMode
  scenes : List Scene
deriving DecidableEq, Repr

/-! ## Audio cache (`audioCache = new Map<string, AudioBuffer>()`)

A JavaScript `Map` is modelled as an association list consulted
front-to-back; `put` conses, which gives the overwrite semantics of `Map.set`
under `get`. -/

/-- The lookup `audioCache.current.get(key)`. -/
def cacheGet {β : Type} (c : List (String × β)) (key : String) : Option β :=
  (c.find? (fun e => e.1 = key)).map (fun e => e.2)

/-- The update `audioCache.current.set(key, buffer)`. -/
def cachePut {β : Type} (c : List (String × β)) (key : String) (v : β) :
    List (String × β) :=
  (key, v) :: c

/-- The membership test `audioCache.current.has(key)`. -/
def cacheHas {β : Type} (c : List (String × β)) (key : String) : Bool :=
  (cacheGet c key).isSome

/-- The key builder `getAudioKey` from `MovieScreen.tsx` lines 132-135, expressed on the
scene id it interpolates: `-1` is the narrator sentinel, any other index the
dialogue-line key. -/
def audioKey (sceneId : String) (lIdx : Int) : String :=
  if lIdx = -1 then sceneId ++ "-narrator"
  else sceneId ++ "-line-" ++ toString lIdx

/-- The id of `movie.scenes[sIdx]`; the source indexes unconditionally and
is only called with in-range indices, so the out-of-range default is never
consulted by the theorems below. -/
def sceneIdAt (m : Movie) (sIdx : Nat) : String :=
  ((m.scenes.get? sIdx).map Scene.id).getD ""

/-- The call `getAudioKey(sIdx, lIdx)` from `MovieScreen.tsx`. -/
def getAudioKey (m : Movie) (sIdx : Nat) (lIdx : Int) : String :=
  audioKey (sceneIdAt m sIdx) lIdx

/-! ## `generateSpeech` (`geminiService.ts` lines 215-237)

The backend call is abstracted as an environment `env : Nat → CallResult`
giving the outcome of the `i`-th attempt.  The function returns the data of
the first successful response (which may itself be `none`, mirroring the
optional-chaining `?.data`), retries after a 429 error, and returns `none`
on any other error.  The second component counts the attempts made. -/

/-- Outcome of one `genAI.models.generateContent` call. -/
inductive CallResult where
  | ok (data : Option String)
  | http429
  | otherError
deriving DecidableEq, Repr

/-- The `for (let i = 0; i < maxRetries; i++)` retry loop body. -/
def generateSpeechGo (env : Nat → CallResult) : Nat → Nat → Option String × Nat
  | 0, i => (none, i)
  | fuel + 1, i =>
    match env i with
    | .ok d => (d, i + 1)
    | .http429 => generateSpeechGo env fuel (i + 1)
    | .otherError => (none, i + 1)

/-- The constant `maxRetries = 3`. -/
def maxRetries : Nat := 3

/-- The function `generateSpeech`: run the retry loop with `maxRetries` attempts starting
at attempt 0.  Returns the resulting data and the number of attempts made.
The source never throws out of this function: every path returns a value. -/
def generateSpeech (env : Nat → CallResult) : Option String × Nat :=
  generateSpeechGo env maxRetries 0

/-! ## `handlePlaybackStep` (`MovieScreen.tsx` lines 254-276)

The action taken for one playback step, as a value: a synthetic timer, an
on-device TTS utterance, or playback of a cached buffer. -/

/-- The observable action of one `handlePlaybackStep` call. -/
inductive StepAction where
  | timer (ms : Nat)
  | speakTTS (text : String)
  | playBuffer (key : String)
deriving DecidableEq, Repr

/-- The function `handlePlaybackStep(text, audioKey, nextStep)`: with audio disabled, a
synthetic delay of `max(2000, text.length * 60)` ms; in browser mode, live
TTS; otherwise the cached buffer when present, else the synthetic delay.
(`String.length` counts code points where JavaScript counts UTF-16 units;
the claims use it abstractly as the character count.) -/
def handlePlaybackStep {β : Type} (mode : AudioMode) (audioEnabled : Bool)
    (cache : List (String × β)) (text : String) (key : String) : StepAction :=
  if !audioEnabled then .timer (max 2000 (text.length * 60))
  else if mode = .browser then .speakTTS text
  else
    match cacheGet cache key with
    | some _ => .playBuffer key
    | none => .timer (max 2000 (text.length * 60))

/-! ## External-track sync (`MovieScreen.tsx` lines 183-216) -/

/-- The predicate of the `findIndex` in `handleTimeUpdate`:
`start = s.startTime ?? 0`, `end = s.endTime ?? Infinity`,
`t >= start && t < end`. -/
def sceneActiveAt (s : Scene) (t : ℚ) : Bool :=
  decide (s.startTime.getD 0 ≤ t) &&
    (match s.endTime with
     | none => true
     | some e => decide (t < e))

/-- Component state shared by the playback models.  `externalTime` is the
`currentTime` of the hidden audio element in external-track mode;
`inFlight` the registered completion callback of the current step;
`audioBusy` whether a buffer source is playing on the shared output
channel; `finishedCount` the number of `onFinish()` invocations. -/
inductive Pending where
  | narrDone
  | lineDone
deriving DecidableEq, Repr

structure PlayerState where
  sceneIndex : Nat
  scriptIndex : Int
  isPlaying : Bool
  audioEnabled : Bool
  inFlight : Option Pending
  audioBusy : Bool
  finishedCount : Nat
  cache : List (String × Nat)
  externalTime : ℚ
deriving DecidableEq, Repr

/-- The handler `handleTimeUpdate` (lines 188-205): find the scene whose
`[start, end)` interval contains `t` and jump `sceneIndex` to it; then, if
the last scene has a truthy (present and nonzero) `endTime` that `t` has
reached, stop playback and call `onFinish`.  The handler runs on every
`timeupdate` event, with no already-finished guard. -/
def handleTimeUpdate (m : Movie) (t : ℚ) (st : PlayerState) : PlayerState :=
  let st1 :=
    match m.scenes.findIdx? (fun s => sceneActiveAt s t) with
    | some j => if j ≠ st.sceneIndex then { st with sceneIndex := j } else st
    | none => st
  match m.scenes.getLast? with
  | some lastScene =>
    match lastScene.endTime with
    | some e =>
      if e ≠ 0 ∧ e ≤ t then
        { st1 with isPlaying := false, finishedCount := st1.finishedCount + 1 }
      else st1
    | none => st1
  | none => st1

/-- The `ended` listener of the external audio element (line 208):
`setIsPlaying(false); onFinish()`. -/
def handleEnded (st : PlayerState) : PlayerState :=
  { st with isPlaying := false, finishedCount := st.finishedCount + 1 }

/-! ## Sequential prefetch (`prepareSceneAudio`, `MovieScreen.tsx` 138-180)

The function `await`s each synthesis request before issuing the next, so
its execution is a sequential trace of actions.  The synthesis backend and
the subsequent PCM decode are abstracted as one oracle
`synth : String → String → Option β` from `(text, voice)` to a decoded
buffer (`none` covers synthesis failure, an empty synthesis result, and a
decode error, all of which leave the cache untouched). -/

/-- One observable action of `prepareSceneAudio`: an awaited synthesis
request for a key, or the fixed `await delay` between line requests. -/
inductive PrefetchAction where
  | fetch (key text voice : String)
  | wait (ms : Nat)
deriving DecidableEq, Repr

/-- The voice of a dialogue line: the `characterId` entry of `voices`,
with the truthiness fallback to the `Puck` voice when absent or empty. -/
def lineVoice (voices : List (String × String)) (charId : String) : String :=
  match cacheGet voices charId with
  | some v => if v = "" then "Puck" else v
  | none => "Puck"

/-- The narrator voice: the narrator entry of `voices`, with the truthiness
fallback to the `Fenrir` voice when absent or empty. -/
def narratorVoice (voices : List (String × String)) : String :=
  match cacheGet voices "narrator" with
  | some v => if v = "" then "Fenrir" else v
  | none => "Fenrir"

/-- The `for (let lIdx = 0; ...)` loop of `prepareSceneAudio`: skip cached
lines (`continue`, which also skips the delay), otherwise request synthesis,
cache a successful result, and `await delay(800)` before the next
iteration. -/
def prepareLines {β : Type} (m : Movie) (synth : String → String → Option β)
    (voices : List (String × String)) (idx : Nat) :
    Nat → List DialogueLine → List (String × β) →
    List PrefetchAction × List (String × β)
  | _, [], c => ([], c)
  | lIdx, line :: rest, c =>
    let key := getAudioKey m idx (lIdx : Int)
    if cacheHas c key then
      prepareLines m synth voices idx (lIdx + 1) rest c
    else
      let voice := lineVoice voices line.characterId
      let c1 :=
        match synth line.text voice with
        | some b => cachePut c key b
        | none => c
      let out := prepareLines m synth voices idx (lIdx + 1) rest c1
      (.fetch key line.text voice :: .wait 800 :: out.1, out.2)

/-- The function `prepareSceneAudio(idx)`: no-op for browser/custom mode or a missing
scene; otherwise fetch the narration when its key is absent and the
description truthy (nonempty), then run the dialogue-line loop. -/
def prepareSceneAudio {β : Type} (m : Movie) (synth : String → String → Option β)
    (voices : List (String × String)) (idx : Nat) (c : List (String × β)) :
    List PrefetchAction × List (String × β) :=
  match m.scenes.get? idx with
  | none => ([], c)
  | some s =>
    if m.audioMode = .browser ∨ m.audioMode = .custom then ([], c)
    else
      let narrKey := getAudioKey m idx (-1)
      let narr :
          List PrefetchAction × List (String × β) :=
        if ¬ cacheHas c narrKey ∧ s.description ≠ "" then
          let voice := narratorVoice voices
          let c1 :=
            match synth s.description voice with
            | some b => cachePut c narrKey b
            | none => c
          ([.fetch narrKey s.description voice], c1)
        else ([], c)
      let lines := prepareLines m synth voices idx 0 s.script narr.2
      (narr.1 ++ lines.1, lines.2)

/-- Whether no two synthesis requests are adjacent in the trace, i.e.
every pair of consecutive requests is separated by a delay. -/
def fetchesSeparated : List PrefetchAction → Bool
  | .fetch _ _ _ :: .fetch _ _ _ :: _ => false
  | _ :: rest => fetchesSeparated rest
  | [] => true

/-- The keys of the synthesis requests in a prefetch trace, in order. -/
def fetchKeys : List PrefetchAction → List String
  | [] => []
  | .fetch k _ _ :: rest => k :: fetchKeys rest
  | .wait _ :: rest => fetchKeys rest

/-! ## The generated-audio loop (`MovieScreen.tsx` lines 231-315)

### Trace semantics under immediate completions

`runFrom m fuel i k` is the sequence of playback steps the loop effect
visits from cursor `(i, k)` when playback stays on (`isPlaying` true, no
pause or restart) and every strategy invokes its completion callback
immediately — the scenario of the trace claims.  Which `StepAction` a step
takes (buffer, TTS, or synthetic timer) does not affect the emitted step or
the successor cursor, so the cache is not threaded here.  `fuel` is an upper
bound on the number of effect runs; each transition strictly advances, and
`movieFuel` below is enough for a full run. -/

/-- One observed playback step: a narration step, a dialogue step, or the
transition to the finished state (`setIsPlaying(false); onFinish()`). -/
inductive PlayEvent where
  | narration (scene : Nat)
  | dialogue (scene line : Nat)
  | finished
deriving DecidableEq, Repr

/-- The loop effect, iterated under immediate completions.  Branches mirror
the source: custom mode returns early; a missing scene finishes; `-1` is
the narration step whose completion sets `scriptIndex` to 0; an in-range
index is a dialogue step whose completion increments it; an index past the
script prepares and enters the next scene, or finishes after the last
scene; any other cursor (the `-2` pre-roll) matches no branch. -/
def runFrom (m : Movie) : Nat → Nat → Int → List PlayEvent
  | 0, _, _ => []
  | fuel + 1, i, k =>
    if m.audioMode = .custom then []
    else
      match m.scenes.get? i with
      | none => [.finished]
      | some s =>
        if k = -1 then .narration i :: runFrom m fuel i 0
        else if 0 ≤ k ∧ k < (s.script.length : Int) then
          .dialogue i k.toNat :: runFrom m fuel i (k + 1)
        else if (s.script.length : Int) ≤ k then
          if i < m.scenes.length - 1 then runFrom m fuel (i + 1) (-1)
          else [.finished]
        else []

/-- Fuel sufficient to play out the scene list `ss`: each scene takes one
narration step, one step per dialogue line, and one end-of-scene
transition. -/
def traceFuel (ss : List Scene) : Nat :=
  (ss.map (fun s => s.script.length + 2)).sum

/-- Fuel sufficient for a full playback run of `m`. -/
def movieFuel (m : Movie) : Nat :=
  traceFuel m.scenes

/-- The steps the specification prescribes for scene `i`: its narration,
then its dialogue lines in order. -/
def specSceneEvents (i : Nat) (s : Scene) : List PlayEvent :=
  .narration i :: (List.range s.script.length).map (fun j => .dialogue i j)

/-- The specified steps from scene index `i` over the remaining scenes. -/
def specTraceFrom (i : Nat) : List Scene → List PlayEvent
  | [] => []
  | s :: rest => specSceneEvents i s ++ specTraceFrom (i + 1) rest

/-- The full specified playback trace: every scene in order, then exactly
one finished transition.  (Second definition for the refinement claim C1,
written from the words of the specification.) -/
def specTrace (m : Movie) : List PlayEvent :=
  specTraceFrom 0 m.scenes ++ [.finished]

/-- Number of narration steps in a trace. -/
def countNarration (tr : List PlayEvent) : Nat :=
  tr.countP (fun e => match e with | .narration _ => true | _ => false)

/-- Number of dialogue steps in a trace. -/
def countDialogue (tr : List PlayEvent) : Nat :=
  tr.countP (fun e => match e with | .dialogue _ _ => true | _ => false)

/-- Number of finished transitions in a trace. -/
def countFinished (tr : List PlayEvent) : Nat :=
  tr.countP (fun e => match e with | .finished => true | _ => false)

/-! ### Interactive semantics (pause / play / restart)

`runEffect` is one run of the loop effect on the component state.  Starting
a playback step registers its completion callback in `inFlight`; the
source attaches the callback to a timer, a TTS end event, or a buffer
the `onended` event of a buffer source, none of which is cancelled by a re-run of the effect,
so `inFlight` survives until delivered by `deliverDone`.  Prefetch before a
scene change is modelled as instantaneous (it is modelled in detail by
`prepareSceneAudio` above), and the effect cascade after an end-of-scene
state change is folded into the same step: the re-run at the new cursor
starts the narration of the next scene. -/

/-- One run of the generated-audio loop effect (lines 231-315). -/
def runEffect (m : Movie) (st : PlayerState) : PlayerState :=
  if m.audioMode = .custom then st
  else if ¬ st.isPlaying then st
  else
    match m.scenes.get? st.sceneIndex with
    | none =>
      { st with isPlaying := false, finishedCount := st.finishedCount + 1 }
    | some s =>
      if st.scriptIndex = -1 then
        let key := getAudioKey m st.sceneIndex (-1)
        match handlePlaybackStep m.audioMode st.audioEnabled st.cache
            s.description key with
        | .playBuffer _ => { st with inFlight := some .narrDone, audioBusy := true }
        | _ => { st with inFlight := some .narrDone }
      else if 0 ≤ st.scriptIndex ∧ st.scriptIndex < (s.script.length : Int) then
        match s.script.get? st.scriptIndex.toNat with
        | none => st
        | some line =>
          let key := getAudioKey m st.sceneIndex st.scriptIndex
          match handlePlaybackStep m.audioMode st.audioEnabled st.cache
              line.text key with
          | .playBuffer _ => { st with inFlight := some .lineDone, audioBusy := true }
          | _ => { st with inFlight := some .lineDone }
      else if (s.script.length : Int) ≤ st.scriptIndex then
        if st.sceneIndex < m.scenes.length - 1 then
          { st with sceneIndex := st.sceneIndex + 1, scriptIndex := -1,
                    inFlight := some .narrDone, audioBusy := true }
        else
          { st with isPlaying := false, finishedCount := st.finishedCount + 1 }
      else st

/-- The pause button: `setIsPlaying(false)` and nothing else — no call
stops the buffer source, the TTS utterance, or the pending timer — followed
by the re-run of the effect (which returns early while not playing). -/
def clickPause (m : Movie) (st : PlayerState) : PlayerState :=
  runEffect m { st with isPlaying := false }

/-- The play button: `setIsPlaying(true)` followed by the re-run of the
effect, which re-enters the step at the current cursor. -/
def clickPlay (m : Movie) (st : PlayerState) : PlayerState :=
  runEffect m { st with isPlaying := true }

/-- Delivery of the registered completion callback: the narration callback
runs `setScriptIndex(0)`, the dialogue callback
`setScriptIndex(prev => prev + 1)`; the buffer has stopped by itself, and
React re-runs the effect on the state change.  The callback fires whether
or not playback is paused, because pausing cancels nothing. -/
def deliverDone (m : Movie) (st : PlayerState) : PlayerState :=
  match st.inFlight with
  | none => st
  | some .narrDone =>
    runEffect m { st with scriptIndex := 0, inFlight := none, audioBusy := false }
  | some .lineDone =>
    runEffect m
      { st with scriptIndex := st.scriptIndex + 1, inFlight := none,
                audioBusy := false }

/-- The handler `handleRestart` (lines 317-327): stop the active buffer source, cancel
TTS, reset the external track to time 0 (the ref is only non-null in custom
mode), and reset the cursor and playing flag.  The audio cache is not
touched.  A previously registered completion callback is not cancelled
(stopping a source even fires its `onended`), so `inFlight` survives. -/
def handleRestart (m : Movie) (st : PlayerState) : PlayerState :=
  { st with
    audioBusy := false,
    externalTime := if m.audioMode = .custom then 0 else st.externalTime,
    sceneIndex := 0,
    scriptIndex := -1,
    isPlaying := true }

/-- The initial-load effect (lines 219-228): outside custom mode, prefetch
scene 0, then `setIsPlaying(true); setScriptIndex(-1)`; in custom mode just
`setIsPlaying(true)` (the cursor stays at the `-2` pre-roll). -/
def initialState (m : Movie) (synth : String → String → Option Nat)
    (voices : List (String × String)) : PlayerState :=
  let base : PlayerState :=
    { sceneIndex := 0, scriptIndex := -2, isPlaying := false,
      audioEnabled := true, inFlight := none, audioBusy := false,
      finishedCount := 0, cache := [], externalTime := 0 }
  if m.audioMode = .custom then { base with isPlaying := true }
  else
    { base with
      cache := (prepareSceneAudio m synth voices 0 base.cache).2,
      isPlaying := true, scriptIndex := -1 }

/-! ## PCM decoding (`MovieScreen.tsx` lines 23-40)

`decodeAudioData` views the byte array as little-endian signed 16-bit
samples, de-interleaves them into `numChannels` channels of
`frameCount = samples / numChannels` frames, and scales by `1 / 32768`.
Sample values are modelled as rationals; the JavaScript doubles here are
exact (a small integer divided by a power of two). -/

/-- A little-endian signed 16-bit value from a low and a high byte. -/
def toInt16 (lo hi : Nat) : Int :=
  let v := lo + 256 * hi
  if v < 32768 then (v : Int) else (v : Int) - 65536

/-- The sample `dataInt16[k]`: the `k`-th 16-bit sample of the byte array. -/
def int16At (bytes : List Nat) (k : Nat) : Int :=
  toInt16 (bytes.getD (2 * k) 0) (bytes.getD (2 * k + 1) 0)

/-- The count `dataInt16.length`: the number of 16-bit samples of an
even-length byte array.  (`decodeAudioData` consults it only behind the
even-length guard below, where the division is exact.) -/
def int16Count (bytes : List Nat) : Nat :=
  bytes.length / 2

/-- The decoded buffer: per-channel sample lists. -/
structure DecodedBuffer where
  numChannels : Nat
  frameCount : Nat
  channelData : List (List ℚ)
deriving DecidableEq, Repr

/-- The successfully decoded buffer:
`channelData[ch][i] = dataInt16[i * numChannels + ch] / 32768`, with
`frameCount` the truncated `dataInt16.length / numChannels` (the WebIDL
unsigned-long conversion inside `createBuffer` truncates a fractional
length, and writes past the buffer length are dropped). -/
def decodeCore (bytes : List Nat) (numChannels : Nat) : DecodedBuffer :=
  let frameCount := int16Count bytes / numChannels
  { numChannels := numChannels
    frameCount := frameCount
    channelData :=
      (List.range numChannels).map (fun ch =>
        (List.range frameCount).map (fun i =>
          (int16At bytes (i * numChannels + ch) : ℚ) / 32768)) }

/-- The function `decodeAudioData(data, ctx, sampleRate, numChannels)` (the
sample rate only tags the output buffer, at the fixed call-site rate of
24000, and is dropped).  The error paths of the source are `none`:
`new Int16Array(data.buffer)` throws a `RangeError` on an odd byte length,
and `ctx.createBuffer` throws a `NotSupportedError` for a channel count
outside 1..32 or a zero frame count. -/
def decodeAudioData (bytes : List Nat) (numChannels : Nat) :
    Option DecodedBuffer :=
  if bytes.length % 2 ≠ 0 then none
  else if numChannels = 0 ∨ 32 < numChannels
      ∨ int16Count bytes / numChannels = 0 then none
  else some (decodeCore bytes numChannels)

/-! ## Concrete fixtures

Small concrete inputs used by witnesses and counterexamples. -/

/-- A two-scene generated-mode movie. -/
def genMovie : Movie :=
  { audioMode := .gemini,
    scenes :=
      [ { id := "s1", description := "intro",
          script := [{ characterId := "hero", text := "hi" }] },
        { id := "s2", description := "next",
          script := [{ characterId := "hero", text := "yo" },
                     { characterId := "villain", text := "ha" }] } ] }

/-- A synthesis oracle that always succeeds. -/
def genSynth : String → String → Option Nat := fun _ _ => some 1

/-- A voice map for `genMovie`. -/
def genVoices : List (String × String) :=
  [("narrator", "Fenrir"), ("hero", "Puck")]

/-- The external-track movie of the specification, with scene intervals
`[0, 5)`, `[5, 12)` and `[12, 20)`. -/
def extMovie : Movie :=
  { audioMode := .custom,
    scenes :=
      [ { id := "a", description := "d1", startTime := some 0,
          endTime := some 5, script := [] },
        { id := "b", description := "d2", startTime := some 5,
          endTime := some 12, script := [] },
        { id := "c", description := "d3", startTime := some 12,
          endTime := some 20, script := [] } ] }

/-- The component state of `extMovie` right after the initial load. -/
def extStart : PlayerState :=
  initialState extMovie (fun _ _ => none) []

/-- A dialogue text of exactly 100 characters. -/
def txt100 : String :=
  (List.replicate 100 'a').asString

/-! ## Proof-layer helper definitions -/

/-- The numeric value of a decimal digit character. -/
def charVal (c : Char) : Nat := c.toNat - 48

/-- The numeric value of a big-endian decimal digit string. -/
def decimalVal (l : List Char) : Nat :=
  l.foldl (fun a c => a * 10 + charVal c) 0

end AiCinema

namespace AiCinema

/-! # Theorems -/

/-! ## Helper lemmas on the audio cache -/

theorem cacheGet_put_same {β : Type} (c : List (String × β)) (k : String)
    (v : β) : cacheGet (cachePut c k v) k = some v := by
  simp [cacheGet, cachePut, List.find?]

theorem cacheGet_put_other {β : Type} (c : List (String × β)) (k k2 : String)
    (v : β) (h : k2 ≠ k) :
    cacheGet (cachePut c k v) k2 = cacheGet c k2 := by
  have h2 : k ≠ k2 := fun hs => h hs.symm
  simp [cacheGet, cachePut, List.find?, h2]

theorem cacheHas_put {β : Type} (c : List (String × β)) (k k2 : String)
    (v : β) (h : k2 ≠ k) :
    cacheHas (cachePut c k v) k2 = cacheHas c k2 := by
  simp [cacheHas, cacheGet_put_other c k k2 v h]

/-! ## C7: audio-disabled fallback -/

/-- C7: with audio globally disabled, every playback step is a synthetic
timer — no buffer is played and no TTS is invoked — whose delay is
`max 2000 (60 * length)`: at least the 2000 ms floor, and monotone in the
character count. -/
theorem c7_audio_disabled_fallback {β : Type} (mode : AudioMode)
    (cache : List (String × β)) (text key : String) :
    handlePlaybackStep mode false cache text key
        = .timer (max 2000 (text.length * 60)) ∧
    2000 ≤ max 2000 (text.length * 60) ∧
    (∀ t2 : String, text.length ≤ t2.length →
      max 2000 (text.length * 60) ≤ max 2000 (t2.length * 60)) := by
  refine ⟨rfl, le_max_left _ _, fun t2 h => ?_⟩
  exact max_le_max le_rfl (Nat.mul_le_mul_right _ h)

/-- Witness for C7 at a 100-character line: the delay is 6000 ms ≥ 2000 ms
and no larger than the delay of a 101-character line. -/
theorem c7_audio_disabled_fallback_witness :
    handlePlaybackStep (β := Nat) .gemini false [] txt100 "s1-narrator"
        = .timer (max 2000 (txt100.length * 60)) ∧
    2000 ≤ max 2000 (txt100.length * 60) ∧
    max 2000 (txt100.length * 60)
        ≤ max 2000 ((txt100 ++ "b").length * 60) := by
  have h := c7_audio_disabled_fallback (β := Nat) .gemini [] txt100 "s1-narrator"
  exact ⟨h.1, h.2.1, h.2.2 (txt100 ++ "b") (by decide)⟩

/-! ## C9: total speech synthesis with bounded retry -/

theorem generateSpeechGo_attempts (env : Nat → CallResult) :
    ∀ (fuel i : Nat), (generateSpeechGo env fuel i).2 ≤ i + fuel := by
  intro fuel
  induction fuel with
  | zero => intro i; simp [generateSpeechGo]
  | succ f ih =>
    intro i
    cases h : env i with
    | ok d => simp [generateSpeechGo, h]
    | http429 =>
      have := ih (i + 1)
      simp only [generateSpeechGo, h]
      omega
    | otherError => simp [generateSpeechGo, h]

/-- C9: `generateSpeech` is a total function into `Option`: it makes at
most 3 attempts; a successful first call returns its (possibly absent)
data after one attempt; a non-429 error returns `none` after one attempt;
three consecutive 429 errors return `none` after exactly 3 attempts; and a
missing buffer is consumed by the playback step as the synthetic-delay
fallback, never as an error. -/
theorem c9_generate_speech_total :
    (∀ env : Nat → CallResult, (generateSpeech env).2 ≤ 3) ∧
    (∀ (env : Nat → CallResult) (d : Option String),
      env 0 = .ok d → generateSpeech env = (d, 1)) ∧
    (∀ env : Nat → CallResult,
      env 0 = .otherError → generateSpeech env = (none, 1)) ∧
    (∀ env : Nat → CallResult,
      env 0 = .http429 → env 1 = .http429 → env 2 = .http429 →
      generateSpeech env = (none, 3)) ∧
    (∀ (cache : List (String × Nat)) (text key : String),
      cacheGet cache key = none →
      handlePlaybackStep .gemini true cache text key
          = .timer (max 2000 (text.length * 60))) := by
  refine ⟨fun env => ?_, fun env d h0 => ?_, fun env h0 => ?_,
    fun env h0 h1 h2 => ?_, fun cache text key hc => ?_⟩
  · have := generateSpeechGo_attempts env 3 0
    simpa [generateSpeech, maxRetries] using this
  · simp [generateSpeech, maxRetries, generateSpeechGo, h0]
  · simp [generateSpeech, maxRetries, generateSpeechGo, h0]
  · simp [generateSpeech, maxRetries, generateSpeechGo, h0, h1, h2]
  · simp [handlePlaybackStep, hc]

/-- Witness for C9: a concrete always-rate-limited environment exhausts the
3 attempts and returns no data; a concrete empty cache falls back to the
timer. -/
theorem c9_generate_speech_total_witness :
    generateSpeech (fun _ => .http429) = (none, 3) ∧
    handlePlaybackStep .gemini true ([] : List (String × Nat)) "hi" "k"
        = .timer (max 2000 ("hi".length * 60)) := by
  exact ⟨c9_generate_speech_total.2.2.2.1 (fun _ => .http429) rfl rfl rfl,
    c9_generate_speech_total.2.2.2.2 [] "hi" "k" rfl⟩

/-! ## C10: PCM decoding -/

theorem toInt16_bounds (lo hi : Nat) (hlo : lo < 256) (hhi : hi < 256) :
    -32768 ≤ toInt16 lo hi ∧ toInt16 lo hi < 32768 := by
  simp only [toInt16]
  split <;> omega

theorem getD_byte_lt (bytes : List Nat) (hbytes : ∀ b ∈ bytes, b < 256)
    (n : Nat) : bytes.getD n 0 < 256 := by
  rcases Nat.lt_or_ge n bytes.length with h | h
  · rw [List.getD_eq_getElem?_getD, List.getElem?_eq_getElem h,
      Option.getD_some]
    exact hbytes _ (List.getElem_mem h)
  · rw [List.getD_eq_getElem?_getD, List.getElem?_eq_none h,
      Option.getD_none]
    decide

theorem int16At_bounds (bytes : List Nat) (hbytes : ∀ b ∈ bytes, b < 256)
    (k : Nat) : -32768 ≤ int16At bytes k ∧ int16At bytes k < 32768 := by
  exact toInt16_bounds _ _ (getD_byte_lt bytes hbytes (2 * k))
    (getD_byte_lt bytes hbytes (2 * k + 1))

theorem sample_in_unit (z : Int) (h1 : -32768 ≤ z) (h2 : z < 32768) :
    -1 ≤ (z : ℚ) / 32768 ∧ (z : ℚ) / 32768 < 1 := by
  constructor
  · rw [le_div_iff (by norm_num : (0 : ℚ) < 32768)]
    have : (-32768 : ℚ) ≤ (z : ℚ) := by exact_mod_cast h1
    linarith
  · rw [div_lt_iff (by norm_num : (0 : ℚ) < 32768)]
    have : (z : ℚ) < 32768 := by exact_mod_cast h2
    linarith

/-- Counterexample to C10: on the odd-length byte array `[0]` (with one
channel) the decoder produces no audio buffer at all — the
`new Int16Array(data.buffer)` view throws a `RangeError` — so the claimed
property does not hold for every input byte array. -/
theorem c10_pcm_decode_counterexample :
    decodeAudioData [0] 1 = none ∧ ([0] : List Nat).length % 2 = 1 := by
  decide

/-- C10 (amended): on an odd-length byte array the decoder throws and
produces no buffer (likewise for a channel count or frame count outside
the range accepted by `createBuffer`); whenever it does produce a buffer,
the frame count is the truncated `samples / channels` — exactly
`samples / channels` when the channel count divides the sample count —
there is one sample list per channel, sample `(ch, i)` equals the
little-endian signed 16-bit integer at position `i * channels + ch`
divided by 32768, and every decoded sample lies in `[-1, 1)`. -/
theorem c10_pcm_decode_amended (bytes : List Nat) (numChannels : Nat)
    (hbytes : ∀ b ∈ bytes, b < 256) :
    (bytes.length % 2 ≠ 0 → decodeAudioData bytes numChannels = none) ∧
    (∀ buf : DecodedBuffer, decodeAudioData bytes numChannels = some buf →
      buf.frameCount = int16Count bytes / numChannels ∧
      (numChannels ∣ int16Count bytes →
        buf.frameCount * numChannels = int16Count bytes) ∧
      buf.channelData.length = numChannels ∧
      (∀ ch : Nat, ch < numChannels →
        buf.channelData.getD ch []
          = (List.range (int16Count bytes / numChannels)).map (fun i =>
              (int16At bytes (i * numChannels + ch) : ℚ) / 32768)) ∧
      (∀ q ∈ buf.channelData.flatten, -1 ≤ q ∧ q < 1)) := by
  constructor
  · intro hodd
    simp [decodeAudioData, hodd]
  · intro buf hbuf
    have hcore : decodeCore bytes numChannels = buf := by
      by_cases h1 : bytes.length % 2 ≠ 0
      · simp [decodeAudioData, h1] at hbuf
      · by_cases h2 : numChannels = 0 ∨ 32 < numChannels
            ∨ int16Count bytes / numChannels = 0
        · simp [decodeAudioData, h1, h2] at hbuf
        · simpa [decodeAudioData, h1, h2] using hbuf
    subst hcore
    refine ⟨rfl, fun hdvd => ?_, ?_, ?_, ?_⟩
    · simpa [decodeCore] using Nat.div_mul_cancel hdvd
    · simp [decodeCore]
    · intro ch hch2
      simp only [decodeCore]
      rw [List.getD_eq_getElem?_getD, List.getElem?_map,
        List.getElem?_range hch2]
      simp
    · intro q hq
      simp only [decodeCore, List.mem_flatten, List.mem_map,
        List.mem_range] at hq
      obtain ⟨l, ⟨ch, _, rfl⟩, hql⟩ := hq
      obtain ⟨i, _, rfl⟩ := List.mem_map.mp hql
      obtain ⟨h1, h2⟩ := int16At_bounds bytes hbytes (i * numChannels + ch)
      exact sample_in_unit _ h1 h2

/-- Witness for the amended C10: an odd-length array errors, and the bytes
`[0x00, 0x40, 0x00, 0x80]` with 2 channels decode to one frame whose
samples are `1/2` and `-1`. -/
theorem c10_pcm_decode_amended_witness :
    decodeAudioData [0, 64, 7] 1 = none ∧
    decodeAudioData [0, 64, 0, 128] 2
        = some (decodeCore [0, 64, 0, 128] 2) ∧
    (decodeCore [0, 64, 0, 128] 2).frameCount * 2
        = int16Count [0, 64, 0, 128] ∧
    (decodeCore [0, 64, 0, 128] 2).channelData = [[(1 : ℚ)/2], [-1]] := by
  have h1 := c10_pcm_decode_amended [0, 64, 7] 1 (by decide)
  have h2 := c10_pcm_decode_amended [0, 64, 0, 128] 2 (by decide)
  have hsome : decodeAudioData [0, 64, 0, 128] 2
      = some (decodeCore [0, 64, 0, 128] 2) := by rfl
  have hprops := h2.2 (decodeCore [0, 64, 0, 128] 2) hsome
  refine ⟨h1.1 (by decide), hsome, hprops.2.1 (by decide), ?_⟩
  simp only [decodeCore]
  norm_num [int16Count, int16At, toInt16, List.range_succ]

/-! ## C6: restart -/

/-- C6: from any state, restart stops the in-flight audio, resets the
cursor to scene 0 narration (and the external track to time 0 in custom
mode), resumes playback, leaves the audio cache untouched, and is
idempotent. -/
theorem c6_restart (m : Movie) (st : PlayerState) :
    (handleRestart m st).sceneIndex = 0 ∧
    (handleRestart m st).scriptIndex = -1 ∧
    (handleRestart m st).isPlaying = true ∧
    (handleRestart m st).audioBusy = false ∧
    (handleRestart m st).cache = st.cache ∧
    (m.audioMode = .custom → (handleRestart m st).externalTime = 0) ∧
    handleRestart m (handleRestart m st) = handleRestart m st := by
  refine ⟨rfl, rfl, rfl, rfl, rfl, fun h => by simp [handleRestart, h], ?_⟩
  simp only [handleRestart]
  split <;> rfl

/-- Witness for C6 at a concrete mid-playback state of `genMovie`. -/
theorem c6_restart_witness :
    (handleRestart genMovie (runEffect genMovie
        (initialState genMovie genSynth genVoices))).sceneIndex = 0 ∧
    (handleRestart genMovie (runEffect genMovie
        (initialState genMovie genSynth genVoices))).scriptIndex = -1 ∧
    (handleRestart genMovie (runEffect genMovie
        (initialState genMovie genSynth genVoices))).isPlaying = true := by
  have h := c6_restart genMovie
    (runEffect genMovie (initialState genMovie genSynth genVoices))
  exact ⟨h.1, h.2.1, h.2.2.1⟩

/-! ## C8: audio cache key derivation and round-trip -/

theorem digitChar_big (n : Nat) (hn : 16 ≤ n) : Nat.digitChar n = '*' := by
  unfold Nat.digitChar
  repeat rw [if_neg (by omega)]

theorem digitChar_ne_dash (n : Nat) : Nat.digitChar n ≠ '-' := by
  rcases Nat.lt_or_ge n 16 with h | h
  · interval_cases n <;> decide
  · rw [digitChar_big n h]
    decide

theorem digitChar_ne_r (n : Nat) : Nat.digitChar n ≠ 'r' := by
  rcases Nat.lt_or_ge n 16 with h | h
  · interval_cases n <;> decide
  · rw [digitChar_big n h]
    decide

theorem toDigitsCore_mem (b : Nat) :
    ∀ (fuel n : Nat) (ds : List Char) (c : Char),
      c ∈ Nat.toDigitsCore b fuel n ds → c ∈ ds ∨ ∃ m, c = Nat.digitChar m := by
  intro fuel
  induction fuel with
  | zero =>
    intro n ds c hc
    simp only [Nat.toDigitsCore] at hc
    exact Or.inl hc
  | succ f ih =>
    intro n ds c hc
    simp only [Nat.toDigitsCore] at hc
    split at hc
    · rcases List.mem_cons.mp hc with h | h
      · exact Or.inr ⟨n % b, h⟩
      · exact Or.inl h
    · rcases ih (n / b) (Nat.digitChar (n % b) :: ds) c hc with h | h
      · rcases List.mem_cons.mp h with h2 | h2
        · exact Or.inr ⟨n % b, h2⟩
        · exact Or.inl h2
      · exact Or.inr h

theorem repr_data_mem (n : Nat) (c : Char) (hc : c ∈ (Nat.repr n).data) :
    ∃ m, c = Nat.digitChar m := by
  have h2 : c ∈ Nat.toDigitsCore 10 (n + 1) n [] := hc
  rcases toDigitsCore_mem 10 (n + 1) n [] c h2 with h | h
  · exact absurd h (List.not_mem_nil c)
  · exact h

theorem toDigitsCore10_append : ∀ (fuel n : Nat) (ds : List Char), n ≤ fuel →
    Nat.toDigitsCore 10 (fuel + 1) n ds
      = Nat.toDigitsCore 10 (fuel + 1) n [] ++ ds := by
  intro fuel
  induction fuel with
  | zero =>
    intro n ds hn
    interval_cases n
    simp [Nat.toDigitsCore]
  | succ f ih =>
    intro n ds hn
    by_cases h : n / 10 = 0
    · simp [Nat.toDigitsCore, h]
    · have hlt : n / 10 ≤ f := by omega
      rw [show Nat.toDigitsCore 10 (f + 1 + 1) n ds
            = Nat.toDigitsCore 10 (f + 1) (n / 10)
                (Nat.digitChar (n % 10) :: ds) from by
          simp [Nat.toDigitsCore, h]]
      rw [show Nat.toDigitsCore 10 (f + 1 + 1) n []
            = Nat.toDigitsCore 10 (f + 1) (n / 10) [Nat.digitChar (n % 10)] from by
          simp [Nat.toDigitsCore, h]]
      rw [ih (n / 10) (Nat.digitChar (n % 10) :: ds) hlt,
          ih (n / 10) [Nat.digitChar (n % 10)] hlt]
      simp

theorem decimalVal_toDigitsCore : ∀ (fuel n : Nat), n ≤ fuel →
    decimalVal (Nat.toDigitsCore 10 (fuel + 1) n []) = n := by
  intro fuel
  induction fuel with
  | zero =>
    intro n hn
    interval_cases n
    decide
  | succ f ih =>
    intro n hn
    by_cases h : n / 10 = 0
    · have hn10 : n < 10 := by omega
      simp only [Nat.toDigitsCore, h, if_true]
      simp [decimalVal, charVal, show Nat.digitChar (n % 10) = Nat.digitChar n from by rw [Nat.mod_eq_of_lt hn10]]
      interval_cases n <;> decide
    · have hlt : n / 10 ≤ f := by omega
      rw [show Nat.toDigitsCore 10 (f + 1 + 1) n []
            = Nat.toDigitsCore 10 (f + 1) (n / 10) [Nat.digitChar (n % 10)] from by
          simp [Nat.toDigitsCore, h]]
      rw [toDigitsCore10_append f (n / 10) [Nat.digitChar (n % 10)] hlt]
      have hmod : charVal (Nat.digitChar (n % 10)) = n % 10 := by
        have : n % 10 < 10 := Nat.mod_lt n (by omega)
        interval_cases hh : (n % 10) <;> simp_all <;> decide
      simp only [decimalVal, List.foldl_append, List.foldl]
      have hcore : List.foldl (fun a c => a * 10 + charVal c) 0
          (Nat.toDigitsCore 10 (f + 1) (n / 10) []) = n / 10 := ih (n / 10) hlt
      rw [hcore, hmod]
      omega

theorem repr_data_inj (n1 n2 : Nat)
    (h : (Nat.repr n1).data = (Nat.repr n2).data) : n1 = n2 := by
  have h1 : decimalVal (Nat.toDigitsCore 10 (n1 + 1) n1 []) = n1 :=
    decimalVal_toDigitsCore n1 n1 le_rfl
  have h2 : decimalVal (Nat.toDigitsCore 10 (n2 + 1) n2 []) = n2 :=
    decimalVal_toDigitsCore n2 n2 le_rfl
  have h3 : Nat.toDigitsCore 10 (n1 + 1) n1 [] = Nat.toDigitsCore 10 (n2 + 1) n2 [] := h
  rw [← h1, h3, h2]

theorem dash_split : ∀ (a u b v : List Char), '-' ∉ a → '-' ∉ b →
    a ++ '-' :: u = b ++ '-' :: v → a = b ∧ u = v := by
  intro a
  induction a with
  | nil =>
    intro u b v _ hb h
    cases b with
    | nil =>
      simp only [List.nil_append] at h
      exact ⟨rfl, (List.cons.injEq _ _ _ _).mp h |>.2⟩
    | cons x xs =>
      simp only [List.nil_append, List.cons_append] at h
      have hx := ((List.cons.injEq _ _ _ _).mp h).1
      exact absurd (List.mem_cons_self x xs) (hx ▸ hb)
  | cons x xs ih =>
    intro u b v ha hb h
    cases b with
    | nil =>
      simp only [List.cons_append, List.nil_append] at h
      have hx := ((List.cons.injEq _ _ _ _).mp h).1
      exact absurd (List.mem_cons_self x xs) (fun hm => ha (hx ▸ hm))
    | cons y ys =>
      simp only [List.cons_append] at h
      have hx := ((List.cons.injEq _ _ _ _).mp h).1
      have ht := ((List.cons.injEq _ _ _ _).mp h).2
      have hrec := ih u ys v (fun hm => ha (List.mem_cons_of_mem x hm))
        (fun hm => hb (List.mem_cons_of_mem y hm)) ht
      exact ⟨by rw [hx, hrec.1], hrec.2⟩

theorem dash_not_mem_repr_rev (j : Nat) :
    '-' ∉ (Nat.repr j).data.reverse := by
  intro hm
  rcases repr_data_mem j _ (List.mem_reverse.mp hm) with ⟨m, hmeq⟩
  exact digitChar_ne_dash m hmeq.symm

theorem audioKey_line_data (id : String) (j : Nat) :
    (audioKey id (j : Int)).data
      = id.data ++ ('-' :: 'l' :: 'i' :: 'n' :: 'e' :: '-' :: [])
          ++ (Nat.repr j).data := by
  unfold audioKey
  rw [if_neg (by omega)]
  rw [String.data_append, String.data_append]
  rfl

theorem audioKey_narr_data (id : String) :
    (audioKey id (-1)).data
      = id.data ++ ('-' :: 'n' :: 'a' :: 'r' :: 'r' :: 'a' :: 't' :: 'o' :: 'r' :: []) := by
  unfold audioKey
  rw [if_pos rfl, String.data_append]

theorem audioKey_line_inj (id1 id2 : String) (j1 j2 : Nat)
    (h : audioKey id1 (j1 : Int) = audioKey id2 (j2 : Int)) :
    id1 = id2 ∧ j1 = j2 := by
  have hd := congrArg String.data h
  rw [audioKey_line_data, audioKey_line_data] at hd
  have hrev := congrArg List.reverse hd
  simp only [List.reverse_append, List.reverse_cons, List.reverse_nil,
    List.nil_append, List.cons_append, List.append_assoc] at hrev
  have hsplit := dash_split _ _ _ _ (dash_not_mem_repr_rev j1)
    (dash_not_mem_repr_rev j2) hrev
  have hj : j1 = j2 := by
    apply repr_data_inj
    have := congrArg List.reverse hsplit.1
    simpa using this
  have hid : id1 = id2 := by
    have h2 := hsplit.2
    simp only [List.cons.injEq, true_and] at h2
    apply String.ext
    have := congrArg List.reverse h2
    simpa using this
  exact ⟨hid, hj⟩

theorem audioKey_narr_ne_line (id1 id2 : String) (j : Nat) :
    audioKey id1 (-1) ≠ audioKey id2 (j : Int) := by
  intro h
  have hd := congrArg String.data h
  rw [audioKey_narr_data, audioKey_line_data] at hd
  have hrev := congrArg List.reverse hd
  simp only [List.reverse_append, List.reverse_cons, List.reverse_nil,
    List.nil_append, List.cons_append, List.append_assoc] at hrev
  cases hrepr : (Nat.repr j).data.reverse with
  | nil =>
    rw [hrepr] at hrev
    simp only [List.nil_append] at hrev
    have := ((List.cons.injEq _ _ _ _).mp hrev).1
    exact absurd this (by decide)
  | cons c cs =>
    rw [hrepr] at hrev
    simp only [List.cons_append] at hrev
    have hc := ((List.cons.injEq _ _ _ _).mp hrev).1
    have hcm : c ∈ (Nat.repr j).data := by
      have : c ∈ (Nat.repr j).data.reverse := by
        rw [hrepr]; exact List.mem_cons_self c cs
      exact List.mem_reverse.mp this
    rcases repr_data_mem j c hcm with ⟨m, hmeq⟩
    exact digitChar_ne_r m (by rw [← hmeq, ← hc])

theorem audioKey_narr_inj (id1 id2 : String)
    (h : audioKey id1 (-1) = audioKey id2 (-1)) : id1 = id2 := by
  have hd := congrArg String.data h
  rw [audioKey_narr_data, audioKey_narr_data] at hd
  have hrev := congrArg List.reverse hd
  simp only [List.reverse_append, List.reverse_cons, List.reverse_nil,
    List.nil_append, List.cons_append, List.append_assoc,
    List.cons.injEq, true_and] at hrev
  apply String.ext
  have h2 := congrArg List.reverse hrev
  simpa using h2


/-- C8: audio cache keys are deterministic in the pair of scene id and step
index: dialogue keys of two scenes coincide only when both the scene ids
and the line indices coincide; a narration key never equals any dialogue
key; narration keys are injective in the scene id; and a buffer put under
a key is retrieved by `get` with exactly that key, every other key reading
as before. -/
theorem c8_audio_keys :
    (∀ (idA idB : String) (i j : Nat),
      audioKey idA (i : Int) = audioKey idB (j : Int) → idA = idB ∧ i = j) ∧
    (∀ (idA idB : String) (j : Nat),
      audioKey idA (-1) ≠ audioKey idB (j : Int)) ∧
    (∀ idA idB : String, audioKey idA (-1) = audioKey idB (-1) → idA = idB) ∧
    (∀ (c : List (String × Nat)) (k : String) (v : Nat),
      cacheGet (cachePut c k v) k = some v) ∧
    (∀ (c : List (String × Nat)) (k k2 : String) (v : Nat), k2 ≠ k →
      cacheGet (cachePut c k v) k2 = cacheGet c k2) :=
  ⟨fun idA idB i j h => audioKey_line_inj idA idB i j h,
   fun idA idB j => audioKey_narr_ne_line idA idB j,
   fun idA idB h => audioKey_narr_inj idA idB h,
   fun c k v => cacheGet_put_same c k v,
   fun c k k2 v h => cacheGet_put_other c k k2 v h⟩

/-- Witness for C8 on concrete keys of scene `s1`. -/
theorem c8_audio_keys_witness :
    ("s1" = "s1" ∧ (0 : Nat) = 0) ∧
    audioKey "s1" (-1) ≠ audioKey "s1" ((0 : Nat) : Int) ∧
    cacheGet (cachePut ([] : List (String × Nat)) (audioKey "s1" (-1)) 7)
        (audioKey "s1" (-1)) = some 7 ∧
    cacheGet (cachePut ([] : List (String × Nat)) (audioKey "s1" (-1)) 7)
        (audioKey "s1" ((0 : Nat) : Int)) = none := by
  refine ⟨c8_audio_keys.1 "s1" "s1" 0 0 rfl, c8_audio_keys.2.1 "s1" "s1" 0,
    c8_audio_keys.2.2.2.1 [] _ 7, ?_⟩
  rw [c8_audio_keys.2.2.2.2 [] _ _ 7
    (fun hh => c8_audio_keys.2.1 "s1" "s1" 0 hh.symm)]
  rfl

/-! ## C2: external-track scene selection -/

theorem findIdx_of_uniq {α : Type} (p : α → Bool) :
    ∀ (l : List α) (j s : Nat) (hj : j < l.length),
      p (l.get ⟨j, hj⟩) = true →
      (∀ (i : Nat) (hi : i < l.length), i < j → p (l.get ⟨i, hi⟩) = false) →
      List.findIdx? p l s = some (s + j) := by
  intro l
  induction l with
  | nil => intro j s hj; exact absurd hj (by simp)
  | cons a t ih =>
    intro j s hj hpj hmin
    cases j with
    | zero =>
      rw [List.findIdx?_cons]
      simp only [List.get] at hpj
      rw [if_pos hpj]
      simp
    | succ j2 =>
      rw [List.findIdx?_cons]
      have ha : p a = false := hmin 0 (by simp) (Nat.succ_pos j2)
      rw [ha]
      simp only [Bool.false_eq_true, if_false]
      have hj2 : j2 < t.length := by simpa using hj
      have hpj2 : p (t.get ⟨j2, hj2⟩) = true := hpj
      have hmin2 : ∀ (i : Nat) (hi : i < t.length), i < j2 →
          p (t.get ⟨i, hi⟩) = false := by
        intro i hi hij
        exact hmin (i + 1) (by simpa using hi) (by omega)
      rw [ih j2 (s + 1) hj2 hpj2 hmin2]
      congr 1
      omega

theorem handleTimeUpdate_sceneIndex (m : Movie) (t : ℚ) (st : PlayerState)
    (j : Nat) (hj : j < m.scenes.length)
    (hact : sceneActiveAt (m.scenes.get ⟨j, hj⟩) t = true)
    (huniq : ∀ (i : Nat) (hi : i < m.scenes.length), i ≠ j →
      sceneActiveAt (m.scenes.get ⟨i, hi⟩) t = false) :
    (handleTimeUpdate m t st).sceneIndex = j := by
  have hfind : m.scenes.findIdx? (fun s => sceneActiveAt s t) = some j := by
    have h0 := findIdx_of_uniq (fun s => sceneActiveAt s t) m.scenes j 0 hj
      hact (fun i hi hij => huniq i hi (by omega))
    simpa using h0
  have hst1 : ((if j ≠ st.sceneIndex then { st with sceneIndex := j }
      else st) : PlayerState).sceneIndex = j := by
    by_cases hc : j ≠ st.sceneIndex
    · rw [if_pos hc]
    · rw [if_neg hc]; omega
  simp only [handleTimeUpdate, hfind]
  split
  · split
    · split
      · simpa using hst1
      · simpa using hst1
    · simpa using hst1
  · simpa using hst1

theorem handleTimeUpdate_finish (m : Movie) (t : ℚ) (st : PlayerState)
    (lastS : Scene) (e : ℚ) (hlast : m.scenes.getLast? = some lastS)
    (he : lastS.endTime = some e) (hne : e ≠ 0) (hte : e ≤ t) :
    (handleTimeUpdate m t st).isPlaying = false ∧
    (handleTimeUpdate m t st).finishedCount = st.finishedCount + 1 := by
  simp only [handleTimeUpdate, hlast, he, if_pos (And.intro hne hte)]
  constructor
  · trivial
  · split
    · split <;> rfl
    · rfl

/-- C2: in external-track mode, a time update at `t` jumps the scene index
to the unique scene whose half-open interval contains `t`; on the concrete
intervals `[0,5)`, `[5,12)`, `[12,20)`, sampling `t = 7.5` selects scene 1,
and sampling any `t ≥ 20` stops playback and fires the finished
callback. -/
theorem c2_external_track_sync :
    (∀ (m : Movie) (t : ℚ) (st : PlayerState) (j : Nat)
      (hj : j < m.scenes.length),
      sceneActiveAt (m.scenes.get ⟨j, hj⟩) t = true →
      (∀ (i : Nat) (hi : i < m.scenes.length), i ≠ j →
        sceneActiveAt (m.scenes.get ⟨i, hi⟩) t = false) →
      (handleTimeUpdate m t st).sceneIndex = j) ∧
    (handleTimeUpdate extMovie (15/2) extStart).sceneIndex = 1 ∧
    (∀ t : ℚ, 20 ≤ t →
      (handleTimeUpdate extMovie t extStart).isPlaying = false ∧
      (handleTimeUpdate extMovie t extStart).finishedCount
        = extStart.finishedCount + 1) := by
  refine ⟨fun m t st j hj hact huniq =>
    handleTimeUpdate_sceneIndex m t st j hj hact huniq, ?_, fun t ht => ?_⟩
  · have h := handleTimeUpdate_sceneIndex extMovie (15/2) extStart 1
      (by norm_num [extMovie])
      (by norm_num [extMovie, sceneActiveAt])
      ?_
    · exact h
    · intro i hi hij
      have hi3 : i < 3 := by simpa [extMovie] using hi
      interval_cases i
      · norm_num [extMovie, sceneActiveAt]
      · omega
      · norm_num [extMovie, sceneActiveAt]
  · exact handleTimeUpdate_finish extMovie t extStart
      { id := "c", description := "d3", startTime := some 12,
        endTime := some 20, script := [] } 20
      (by norm_num [extMovie]) rfl (by norm_num) ht

/-- Witness for C2: the general scene-selection part applied at the
concrete integer time 6, which lies in scene 1 of `extMovie`, and the
finish part applied at time 20. -/
theorem c2_external_track_sync_witness :
    (handleTimeUpdate extMovie 6 extStart).sceneIndex = 1 ∧
    (handleTimeUpdate extMovie 20 extStart).isPlaying = false := by
  constructor
  · exact c2_external_track_sync.1 extMovie 6 extStart 1 (by decide)
      (by decide) (by decide)
  · exact (c2_external_track_sync.2.2 20 (by norm_num)).1

/-! ## C1: the generated-audio playback trace -/

theorem runFrom_narration (m : Movie) (hmode : m.audioMode ≠ .custom)
    (i f : Nat) (s : Scene) (hs : m.scenes[i]? = some s) :
    runFrom m (f + 1) i (-1) = .narration i :: runFrom m f i 0 := by
  simp [runFrom, hmode, hs]

theorem runFrom_dialogue_step (m : Movie) (hmode : m.audioMode ≠ .custom)
    (i f : Nat) (s : Scene) (hs : m.scenes[i]? = some s) (k : Int)
    (hk1 : k ≠ -1) (hk2 : 0 ≤ k) (hk3 : k < (s.script.length : Int)) :
    runFrom m (f + 1) i k = .dialogue i k.toNat :: runFrom m f i (k + 1) := by
  simp [runFrom, hmode, hs, hk1, hk2, hk3]

theorem runFrom_sceneEnd (m : Movie) (hmode : m.audioMode ≠ .custom)
    (i f : Nat) (s : Scene) (hs : m.scenes[i]? = some s) :
    runFrom m (f + 1) i (s.script.length : Int)
      = if i < m.scenes.length - 1 then runFrom m f (i + 1) (-1)
        else [.finished] := by
  have h1 : ((s.script.length : Nat) : Int) ≠ -1 := by omega
  simp [runFrom, hmode, hs, h1]

theorem runFrom_dialogue (m : Movie) (hmode : m.audioMode ≠ .custom)
    (i : Nat) (s : Scene) (hs : m.scenes[i]? = some s) :
    ∀ (c j f : Nat), j + c = s.script.length →
      runFrom m (f + c) i ((j : Nat) : Int)
        = (List.range' j c).map (PlayEvent.dialogue i)
          ++ runFrom m f i (s.script.length : Int) := by
  intro c
  induction c with
  | zero =>
    intro j f hj
    have hjs : j = s.script.length := by omega
    subst hjs
    simp [List.range']
  | succ c2 ih =>
    intro j f hj
    rw [show f + (c2 + 1) = (f + c2) + 1 from by omega]
    rw [runFrom_dialogue_step m hmode i (f + c2) s hs ((j : Nat) : Int)
      (by omega) (by omega) (by omega)]
    rw [show ((j : Nat) : Int) + 1 = ((j + 1 : Nat) : Int) from by push_cast; ring]
    rw [ih (j + 1) f (by omega)]
    rw [List.range'_succ]
    simp

theorem runFrom_scenes (m : Movie) (hmode : m.audioMode ≠ .custom) :
    ∀ (ss : List Scene) (s : Scene) (i : Nat),
      m.scenes.drop i = s :: ss →
      runFrom m (traceFuel (s :: ss)) i (-1)
        = specTraceFrom i (s :: ss) ++ [.finished] := by
  intro ss
  induction ss with
  | nil =>
    intro s i hdrop
    have hs : m.scenes[i]? = some s := by
      have h1 := List.getElem?_drop m.scenes i 0
      rw [Nat.add_zero, hdrop] at h1
      rw [← h1]
      rfl
    have hlen : m.scenes.length = i + 1 := by
      have hl := List.length_drop i m.scenes
      rw [hdrop] at hl
      simp at hl
      omega
    have hfuel : traceFuel [s] = (s.script.length + 1) + 1 := by
      simp [traceFuel]
    rw [hfuel, runFrom_narration m hmode i (s.script.length + 1) s hs]
    rw [show s.script.length + 1 = 1 + s.script.length from by omega]
    have hd := runFrom_dialogue m hmode i s hs s.script.length 0 1 (by omega)
    simp only [Nat.cast_zero] at hd
    rw [hd]
    have hend := runFrom_sceneEnd m hmode i 0 s hs
    norm_num at hend
    rw [hend]
    rw [if_neg (by omega)]
    simp [specTraceFrom, specSceneEvents, List.range_eq_range']
  | cons s2 ss2 ih =>
    intro s i hdrop
    have hs : m.scenes[i]? = some s := by
      have h1 := List.getElem?_drop m.scenes i 0
      rw [Nat.add_zero, hdrop] at h1
      rw [← h1]
      rfl
    have hlen : m.scenes.length = i + 2 + ss2.length := by
      have hl := List.length_drop i m.scenes
      rw [hdrop] at hl
      simp at hl
      omega
    have hdrop2 : m.scenes.drop (i + 1) = s2 :: ss2 := by
      have h2 := List.drop_drop 1 i m.scenes
      rw [hdrop] at h2
      simpa using h2.symm
    have hfuel : traceFuel (s :: s2 :: ss2)
        = ((1 + traceFuel (s2 :: ss2)) + s.script.length) + 1 := by
      simp [traceFuel]
      omega
    rw [hfuel, runFrom_narration m hmode i _ s hs]
    have hd := runFrom_dialogue m hmode i s hs s.script.length 0
      (1 + traceFuel (s2 :: ss2)) (by omega)
    simp only [Nat.cast_zero] at hd
    rw [hd]
    rw [show 1 + traceFuel (s2 :: ss2) = traceFuel (s2 :: ss2) + 1 from by omega]
    rw [runFrom_sceneEnd m hmode i (traceFuel (s2 :: ss2)) s hs]
    rw [if_pos (by omega)]
    rw [ih s2 (i + 1) hdrop2]
    simp [specTraceFrom, specSceneEvents, List.range_eq_range']

theorem countNarration_specTraceFrom :
    ∀ (ss : List Scene) (i : Nat),
      countNarration (specTraceFrom i ss) = ss.length := by
  intro ss
  induction ss with
  | nil => intro i; simp [specTraceFrom, countNarration]
  | cons s rest ih =>
    intro i
    have hcomp : ((fun e => match e with
        | PlayEvent.narration _ => true
        | _ => false) ∘ PlayEvent.dialogue i) = fun _ => false := rfl
    simp [specTraceFrom, specSceneEvents, countNarration, List.countP_append,
      List.countP_cons, List.countP_map, hcomp, ih i.succ]
    simpa [countNarration] using ih (i + 1)

theorem countDialogue_specTraceFrom :
    ∀ (ss : List Scene) (i : Nat),
      countDialogue (specTraceFrom i ss)
        = (ss.map (fun s => s.script.length)).sum := by
  intro ss
  induction ss with
  | nil => intro i; simp [specTraceFrom, countDialogue]
  | cons s rest ih =>
    intro i
    have hcomp : ((fun e => match e with
        | PlayEvent.dialogue _ _ => true
        | _ => false) ∘ PlayEvent.dialogue i) = fun _ => true := rfl
    simp [specTraceFrom, specSceneEvents, countDialogue, List.countP_append,
      List.countP_cons, List.countP_map, hcomp, List.countP_true]
    simpa [countDialogue] using ih (i + 1)

theorem countFinished_specTraceFrom :
    ∀ (ss : List Scene) (i : Nat),
      countFinished (specTraceFrom i ss) = 0 := by
  intro ss
  induction ss with
  | nil => intro i; simp [specTraceFrom, countFinished]
  | cons s rest ih =>
    intro i
    have hcomp : ((fun e => match e with
        | PlayEvent.finished => true
        | _ => false) ∘ PlayEvent.dialogue i) = fun _ => false := rfl
    simp [specTraceFrom, specSceneEvents, countFinished, List.countP_append,
      List.countP_cons, List.countP_map, hcomp]
    simpa [countFinished] using ih (i + 1)

/-- C1: for a movie with at least one scene in generated or on-device
mode, the playback loop under immediate completions visits exactly the
specified trace — narration of scene `i` then its dialogue lines in order,
scene by scene — so it makes exactly `N` narration steps,
`Σ scriptLength` dialogue steps, and exactly one finished transition at
the end. -/
theorem c1_generated_trace (m : Movie) (hmode : m.audioMode ≠ .custom)
    (hN : 1 ≤ m.scenes.length) :
    runFrom m (movieFuel m) 0 (-1) = specTrace m ∧
    countNarration (runFrom m (movieFuel m) 0 (-1)) = m.scenes.length ∧
    countDialogue (runFrom m (movieFuel m) 0 (-1))
      = (m.scenes.map (fun s => s.script.length)).sum ∧
    countFinished (runFrom m (movieFuel m) 0 (-1)) = 1 := by
  obtain ⟨s, ss, hcons⟩ : ∃ s ss, m.scenes = s :: ss := by
    cases hsc : m.scenes with
    | nil => rw [hsc] at hN; simp at hN
    | cons a t => exact ⟨a, t, rfl⟩
  have hdrop : m.scenes.drop 0 = s :: ss := by rw [List.drop_zero, hcons]
  have htrace := runFrom_scenes m hmode ss s 0 hdrop
  have hfuel : movieFuel m = traceFuel (s :: ss) := by rw [movieFuel, hcons]
  have h1 : runFrom m (movieFuel m) 0 (-1) = specTrace m := by
    rw [hfuel, htrace, specTrace, hcons]
  refine ⟨h1, ?_, ?_, ?_⟩
  · rw [h1, specTrace, countNarration, List.countP_append,
      ← countNarration, countNarration_specTraceFrom m.scenes 0]
    simp [countNarration, List.countP_cons]
  · rw [h1, specTrace, countDialogue, List.countP_append,
      ← countDialogue, countDialogue_specTraceFrom m.scenes 0]
    simp [countDialogue, List.countP_cons]
  · rw [h1, specTrace, countFinished, List.countP_append,
      ← countFinished, countFinished_specTraceFrom m.scenes 0]
    simp [countFinished, List.countP_cons]

/-- Witness for C1 on the concrete two-scene movie `genMovie`. -/
theorem c1_generated_trace_witness :
    runFrom genMovie (movieFuel genMovie) 0 (-1) = specTrace genMovie ∧
    countNarration (runFrom genMovie (movieFuel genMovie) 0 (-1)) = 2 := by
  have h := c1_generated_trace genMovie (by decide) (by decide)
  exact ⟨h.1, h.2.1⟩

/-! ## C3: pause -/

/-- Counterexample to C3: from the reachable state of `genMovie` in which
the narration of scene 0 is in flight, pressing pause leaves the buffer
source playing (`audioBusy` stays true, nothing is stopped), and the
pending completion callback still fires during the pause, moving the
cursor from the narration step to dialogue step 0 — a step transition
between the pause and any subsequent play. -/
theorem c3_pause_counterexample :
    (runEffect genMovie (initialState genMovie genSynth genVoices)).inFlight
        = some .narrDone ∧
    (runEffect genMovie (initialState genMovie genSynth genVoices)).audioBusy
        = true ∧
    (runEffect genMovie (initialState genMovie genSynth genVoices)).scriptIndex
        = -1 ∧
    (clickPause genMovie (runEffect genMovie
        (initialState genMovie genSynth genVoices))).audioBusy = true ∧
    (clickPause genMovie (runEffect genMovie
        (initialState genMovie genSynth genVoices))).inFlight
        = some .narrDone ∧
    (deliverDone genMovie (clickPause genMovie (runEffect genMovie
        (initialState genMovie genSynth genVoices)))).scriptIndex = 0 := by
  decide

theorem runEffect_narr (m : Movie) (st : PlayerState) (s : Scene)
    (hmode : m.audioMode ≠ .custom) (hp : st.isPlaying = true)
    (hsc : m.scenes.get? st.sceneIndex = some s) (hk : st.scriptIndex = -1) :
    (runEffect m st).scriptIndex = st.scriptIndex ∧
    (runEffect m st).sceneIndex = st.sceneIndex ∧
    (runEffect m st).inFlight = some .narrDone := by
  unfold runEffect
  rw [if_neg hmode, if_neg (by simp [hp]), hsc]
  dsimp only
  rw [if_pos hk]
  split <;> simp [hk]

theorem runEffect_line (m : Movie) (st : PlayerState) (s : Scene)
    (hmode : m.audioMode ≠ .custom) (hp : st.isPlaying = true)
    (hsc : m.scenes.get? st.sceneIndex = some s)
    (hk0 : 0 ≤ st.scriptIndex)
    (hkl : st.scriptIndex < (s.script.length : Int)) :
    (runEffect m st).scriptIndex = st.scriptIndex ∧
    (runEffect m st).sceneIndex = st.sceneIndex ∧
    (runEffect m st).inFlight = some .lineDone := by
  have hk1 : st.scriptIndex ≠ -1 := by omega
  have hlt : st.scriptIndex.toNat < s.script.length := by omega
  have hline : s.script.get? st.scriptIndex.toNat
      = some (s.script.get ⟨st.scriptIndex.toNat, hlt⟩) := by
    rw [List.get?_eq_getElem?, List.getElem?_eq_getElem hlt]
    rfl
  unfold runEffect
  rw [if_neg hmode, if_neg (by simp [hp]), hsc]
  dsimp only
  rw [if_neg hk1, if_pos (And.intro hk0 hkl), hline]
  dsimp only
  split <;> simp

/-- C3 (amended): pause leaves the cursor unchanged at the instant of the
pause and play re-enters the step at the current cursor — the narration
step as well as any in-range dialogue line — re-triggering its speak call
from the start of the line; but pause stops nothing: the in-flight audio
keeps playing, and if its completion callback fires during the pause the
cursor advances one step. -/
theorem c3_pause_amended (m : Movie) (st : PlayerState) :
    (clickPause m st).sceneIndex = st.sceneIndex ∧
    (clickPause m st).scriptIndex = st.scriptIndex ∧
    (clickPause m st).audioBusy = st.audioBusy ∧
    (clickPause m st).inFlight = st.inFlight ∧
    (st.inFlight = some .lineDone →
      (deliverDone m (clickPause m st)).scriptIndex = st.scriptIndex + 1) ∧
    (st.inFlight = some .narrDone →
      (deliverDone m (clickPause m st)).scriptIndex = 0) ∧
    (∀ s : Scene, m.audioMode ≠ .custom →
      m.scenes.get? st.sceneIndex = some s → st.scriptIndex = -1 →
      (clickPlay m (clickPause m st)).scriptIndex = st.scriptIndex ∧
      (clickPlay m (clickPause m st)).inFlight = some .narrDone) ∧
    (∀ s : Scene, m.audioMode ≠ .custom →
      m.scenes.get? st.sceneIndex = some s →
      0 ≤ st.scriptIndex → st.scriptIndex < (s.script.length : Int) →
      (clickPlay m (clickPause m st)).scriptIndex = st.scriptIndex ∧
      (clickPlay m (clickPause m st)).inFlight = some .lineDone) := by
  have hpause : clickPause m st = { st with isPlaying := false } := by
    unfold clickPause runEffect
    split
    · rfl
    · split
      · rfl
      · next h => simp at h
  have hplay : clickPlay m (clickPause m st)
      = runEffect m { st with isPlaying := true } := by
    rw [hpause]
    simp [clickPlay]
  refine ⟨by rw [hpause], by rw [hpause], by rw [hpause], by rw [hpause],
    fun h => ?_, fun h => ?_, fun s hmode hsc hk => ?_,
    fun s hmode hsc hk0 hkl => ?_⟩
  · rw [hpause]
    simp [deliverDone, h, runEffect]
  · rw [hpause]
    simp [deliverDone, h, runEffect]
  · have hr := runEffect_narr m { st with isPlaying := true } s hmode rfl
      hsc hk
    rw [hplay]
    exact ⟨hr.1, hr.2.2⟩
  · have hr := runEffect_line m { st with isPlaying := true } s hmode rfl
      hsc hk0 hkl
    rw [hplay]
    exact ⟨hr.1, hr.2.2⟩

/-- Witness for the amended C3 at the concrete in-flight narration state
of `genMovie`. -/
theorem c3_pause_amended_witness :
    (deliverDone genMovie (clickPause genMovie (runEffect genMovie
        (initialState genMovie genSynth genVoices)))).scriptIndex = 0 ∧
    (clickPlay genMovie (clickPause genMovie (runEffect genMovie
        (initialState genMovie genSynth genVoices)))).inFlight
      = some Pending.narrDone ∧
    (clickPlay genMovie (clickPause genMovie (deliverDone genMovie
        (runEffect genMovie
          (initialState genMovie genSynth genVoices))))).scriptIndex = 0 ∧
    (clickPlay genMovie (clickPause genMovie (deliverDone genMovie
        (runEffect genMovie
          (initialState genMovie genSynth genVoices))))).inFlight
      = some Pending.lineDone := by
  have h := c3_pause_amended genMovie
    (runEffect genMovie (initialState genMovie genSynth genVoices))
  have h2 := c3_pause_amended genMovie
    (deliverDone genMovie (runEffect genMovie
      (initialState genMovie genSynth genVoices)))
  have hline := h2.2.2.2.2.2.2.2
    { id := "s1", description := "intro",
      script := [{ characterId := "hero", text := "hi" }] }
    (by decide) (by decide) (by decide) (by decide)
  refine ⟨h.2.2.2.2.2.1 (by decide), ?_, ?_, hline.2⟩
  · exact (h.2.2.2.2.2.2.1
      { id := "s1", description := "intro",
        script := [{ characterId := "hero", text := "hi" }] }
      (by decide) (by decide) (by decide)).2
  · exact hline.1

/-! ## C4: the finished callback -/

/-- Counterexample to C4: in external-track mode two consecutive time
updates past the end of the last scene, within one session, each fire the
finished callback — it is not invoked at most once per session. -/
theorem c4_finished_counterexample :
    extStart.finishedCount = 0 ∧
    (handleTimeUpdate extMovie 22
        (handleTimeUpdate extMovie 21 extStart)).finishedCount = 2 := by
  decide

/-- C4 (amended): in generated/on-device mode a full playback run fires
the finished callback exactly once; in external-track mode every time
update at or past the (nonzero) end of the last scene fires the callback
again, as does every end-of-stream event, so it can fire more than once
per session. -/
theorem c4_finished_amended :
    (∀ m : Movie, m.audioMode ≠ .custom → 1 ≤ m.scenes.length →
      countFinished (runFrom m (movieFuel m) 0 (-1)) = 1) ∧
    (∀ (m : Movie) (t : ℚ) (st : PlayerState) (lastS : Scene) (e : ℚ),
      m.scenes.getLast? = some lastS → lastS.endTime = some e →
      e ≠ 0 → e ≤ t →
      (handleTimeUpdate m t st).finishedCount = st.finishedCount + 1) ∧
    (∀ st : PlayerState,
      (handleEnded st).finishedCount = st.finishedCount + 1) := by
  refine ⟨fun m hmode hN => ?_, fun m t st lastS e h1 h2 h3 h4 =>
    (handleTimeUpdate_finish m t st lastS e h1 h2 h3 h4).2, fun st => rfl⟩
  obtain ⟨s, ss, hcons⟩ : ∃ s ss, m.scenes = s :: ss := by
    cases hsc : m.scenes with
    | nil => rw [hsc] at hN; simp at hN
    | cons a t => exact ⟨a, t, rfl⟩
  have hdrop : m.scenes.drop 0 = s :: ss := by rw [List.drop_zero, hcons]
  have htrace := runFrom_scenes m hmode ss s 0 hdrop
  have hfuel : movieFuel m = traceFuel (s :: ss) := by rw [movieFuel, hcons]
  have h1 : runFrom m (movieFuel m) 0 (-1) = specTrace m := by
    rw [hfuel, htrace, specTrace, hcons]
  rw [h1, specTrace, countFinished, List.countP_append, ← countFinished,
    countFinished_specTraceFrom m.scenes 0]
  simp [countFinished, List.countP_cons]

/-- Witness for the amended C4: `genMovie` fires finished once; a time
update at exactly 20 on `extMovie` increments the count; so does an
end-of-stream event. -/
theorem c4_finished_amended_witness :
    countFinished (runFrom genMovie (movieFuel genMovie) 0 (-1)) = 1 ∧
    (handleTimeUpdate extMovie 20 extStart).finishedCount
      = extStart.finishedCount + 1 ∧
    (handleEnded extStart).finishedCount = extStart.finishedCount + 1 := by
  refine ⟨c4_finished_amended.1 genMovie (by decide) (by decide), ?_, ?_⟩
  · exact c4_finished_amended.2.1 extMovie 20 extStart
      { id := "c", description := "d3", startTime := some 12,
        endTime := some 20, script := [] } 20
      (by decide) rfl (by decide) (by decide)
  · exact c4_finished_amended.2.2 extStart

/-! ## C5: sequential prefetch -/

theorem fetchKeys_append (l1 l2 : List PrefetchAction) :
    fetchKeys (l1 ++ l2) = fetchKeys l1 ++ fetchKeys l2 := by
  induction l1 with
  | nil => rfl
  | cons a t ih =>
    cases a <;> simp [fetchKeys, ih]

theorem getAudioKey_line_ne (m : Movie) (idx : Nat) (j1 j2 : Nat)
    (h : j1 ≠ j2) :
    getAudioKey m idx (j1 : Int) ≠ getAudioKey m idx (j2 : Int) := by
  intro heq
  exact h (audioKey_line_inj _ _ j1 j2 heq).2

theorem getAudioKey_narr_ne (m : Movie) (idx : Nat) (j : Nat) :
    getAudioKey m idx (-1) ≠ getAudioKey m idx (j : Int) :=
  audioKey_narr_ne_line _ _ j

theorem fetchesSeparated_prepareLines {β : Type} (m : Movie)
    (synth : String → String → Option β) (voices : List (String × String))
    (idx : Nat) :
    ∀ (lines : List DialogueLine) (lIdx : Nat) (c : List (String × β)),
      fetchesSeparated (prepareLines m synth voices idx lIdx lines c).1
        = true := by
  intro lines
  induction lines with
  | nil => intro lIdx c; rfl
  | cons line rest ih =>
    intro lIdx c
    by_cases h : cacheHas c (getAudioKey m idx (lIdx : Int))
    · simp only [prepareLines, h, if_true]
      exact ih (lIdx + 1) c
    · simp only [prepareLines, h, if_false, Bool.false_eq_true]
      cases hrec : prepareLines m synth voices idx (lIdx + 1) rest
        (match synth line.text (lineVoice voices line.characterId) with
         | some b => cachePut c (getAudioKey m idx (lIdx : Int)) b
         | none => c) with
      | mk acts c2 =>
        simp only [fetchesSeparated]
        have := ih (lIdx + 1)
          (match synth line.text (lineVoice voices line.characterId) with
           | some b => cachePut c (getAudioKey m idx (lIdx : Int)) b
           | none => c)
        rw [hrec] at this
        exact this

theorem fetchKeys_prepareLines {β : Type} (m : Movie)
    (synth : String → String → Option β) (voices : List (String × String))
    (idx : Nat) (c0 : List (String × β)) :
    ∀ (lines : List DialogueLine) (lIdx : Nat) (c : List (String × β)),
      (∀ j : Nat, lIdx ≤ j →
        cacheHas c (getAudioKey m idx (j : Int))
          = cacheHas c0 (getAudioKey m idx (j : Int))) →
      fetchKeys (prepareLines m synth voices idx lIdx lines c).1
        = ((List.range' lIdx lines.length).map
            (fun j : Nat => getAudioKey m idx (j : Int))).filter
            (fun k => !(cacheHas c0 k)) := by
  intro lines
  induction lines with
  | nil => intro lIdx c hinv; rfl
  | cons line rest ih =>
    intro lIdx c hinv
    have hkey := hinv lIdx le_rfl
    by_cases h : cacheHas c (getAudioKey m idx (lIdx : Int))
    · have h0 : cacheHas c0 (getAudioKey m idx (lIdx : Int)) = true := by
        rw [← hkey]; exact h
      simp only [prepareLines, h, if_true]
      rw [ih (lIdx + 1) c (fun j hj => hinv j (by omega))]
      rw [List.length_cons, List.range'_succ, List.map_cons,
        List.filter_cons]
      simp [h0]
    · have h0 : cacheHas c0 (getAudioKey m idx (lIdx : Int)) = false := by
        rw [← hkey]; simpa using h
      simp only [prepareLines, h, if_false, Bool.false_eq_true]
      have hinv2 : ∀ j : Nat, lIdx + 1 ≤ j →
          cacheHas
            (match synth line.text (lineVoice voices line.characterId) with
             | some b => cachePut c (getAudioKey m idx (lIdx : Int)) b
             | none => c)
            (getAudioKey m idx (j : Int))
          = cacheHas c0 (getAudioKey m idx (j : Int)) := by
        intro j hj
        cases hsynth : synth line.text (lineVoice voices line.characterId) with
        | none => exact hinv j (by omega)
        | some b =>
          rw [cacheHas_put c _ _ b
            (getAudioKey_line_ne m idx j lIdx (by omega))]
          exact hinv j (by omega)
      cases hrec : prepareLines m synth voices idx (lIdx + 1) rest
        (match synth line.text (lineVoice voices line.characterId) with
         | some b => cachePut c (getAudioKey m idx (lIdx : Int)) b
         | none => c) with
      | mk acts c2 =>
        have hih := ih (lIdx + 1) _ hinv2
        rw [hrec] at hih
        simp only [fetchKeys]
        rw [hih]
        rw [List.length_cons, List.range'_succ, List.map_cons,
          List.filter_cons]
        simp [h0]

/-- C5 (amended): prefetch issues its requests strictly sequentially
(each awaited before the next); the set of requested keys is exactly the
cache-absent keys — the narration key when the description is nonempty and
its key absent, then each absent dialogue-line key in order — so no fetch
is ever started for a cached key; and each dialogue-line request is
followed by the fixed 800 ms delay before the next request, though the
narration request is not separated from the first dialogue request by any
delay. -/
theorem c5_prefetch_amended {β : Type} (m : Movie)
    (synth : String → String → Option β) (voices : List (String × String))
    (idx : Nat) (s : Scene) (c : List (String × β))
    (hs : m.scenes.get? idx = some s) (hmode : m.audioMode = .gemini) :
    fetchKeys (prepareSceneAudio m synth voices idx c).1
      = (if ¬ cacheHas c (getAudioKey m idx (-1)) = true ∧ s.description ≠ ""
          then [getAudioKey m idx (-1)] else [])
        ++ ((List.range' 0 s.script.length).map
              (fun j : Nat => getAudioKey m idx (j : Int))).filter
             (fun k => !(cacheHas c k)) ∧
    (∀ (lines : List DialogueLine) (lIdx : Nat) (c2 : List (String × β)),
      fetchesSeparated (prepareLines m synth voices idx lIdx lines c2).1
        = true) := by
  refine ⟨?_, fun lines lIdx c2 =>
    fetchesSeparated_prepareLines m synth voices idx lines lIdx c2⟩
  have hmode2 : ¬ (m.audioMode = .browser ∨ m.audioMode = .custom) := by
    rw [hmode]; simp
  simp only [prepareSceneAudio, hs, hmode2, if_false]
  by_cases hn : ¬ cacheHas c (getAudioKey m idx (-1)) = true
      ∧ s.description ≠ ""
  · rw [if_pos hn, if_pos hn]
    cases hsynth : synth s.description (narratorVoice voices) with
    | none =>
      dsimp only
      rw [fetchKeys_append]
      rw [fetchKeys_prepareLines m synth voices idx c s.script 0 c
        (fun j hj => rfl)]
      rfl
    | some b =>
      dsimp only
      rw [fetchKeys_append]
      rw [fetchKeys_prepareLines m synth voices idx c s.script 0
        (cachePut c (getAudioKey m idx (-1)) b)
        (fun j hj => cacheHas_put c (getAudioKey m idx (-1))
          (getAudioKey m idx (j : Int)) b (getAudioKey_narr_ne m idx j).symm)]
      rfl
  · rw [if_neg hn, if_neg hn]
    dsimp only
    simp only [List.nil_append]
    rw [fetchKeys_prepareLines m synth voices idx c s.script 0 c
      (fun j hj => rfl)]

/-- Counterexample to C5: on scene 0 of `genMovie` with an empty cache the
trace is narration fetch, first-line fetch, delay — the narration request
and the first dialogue request are adjacent, with no delay between them,
so the requests are not all separated by the fixed delay. -/
theorem c5_prefetch_counterexample :
    (prepareSceneAudio genMovie genSynth genVoices 0
        ([] : List (String × Nat))).1
      = [.fetch "s1-narrator" "intro" "Fenrir",
         .fetch "s1-line-0" "hi" "Puck", .wait 800] ∧
    fetchesSeparated ((prepareSceneAudio genMovie genSynth genVoices 0
        ([] : List (String × Nat))).1) = false := by
  decide

/-- Witness for the amended C5 on scene 0 of `genMovie` with an empty
cache. -/
theorem c5_prefetch_amended_witness :
    fetchKeys (prepareSceneAudio genMovie genSynth genVoices 0
        ([] : List (String × Nat))).1
      = ["s1-narrator", "s1-line-0"] ∧
    fetchesSeparated (prepareLines genMovie genSynth genVoices 0 0
        [{ characterId := "hero", text := "hi" }]
        ([] : List (String × Nat))).1 = true := by
  have h := c5_prefetch_amended genMovie genSynth genVoices 0
    { id := "s1", description := "intro",
      script := [{ characterId := "hero", text := "hi" }] }
    ([] : List (String × Nat)) (by decide) (by decide)
  constructor
  · rw [h.1]
    decide
  · exact h.2 [{ characterId := "hero", text := "hi" }] 0 []

end AiCinema
